import Mathlib

/-!
# Verification of the procurement-fraud duplicate-detection scripts

Shallow embedding of the core routines of the repository:

* `sl-api-vis.py` / `y-api.py` — firm-record duplicate-entity graph resolver
  (`normalize_firm_name`, `similar_address`, `find_duplicate_components`);
* `0A-template.py` — phrase-level boilerplate detection (`clean_page_text`,
  `find_common_text`, `main`'s two-document precondition);
* `0B-1-match.py` — `compute_text_similarity`, `compute_image_similarity`;
* `1-report.py` / `1A-report.py` — `text_similarity`,
  `extract_matching_sentences`, `compare_images`, `process_image_comparison`.

Python strings are modelled as Lean `String`/`List Char`.  Python's `\s`,
`str.strip` and `str.lower` operate on full Unicode; the embedding models the
ASCII range plus the non-breaking space (the characters the scripts' data
actually contains).  `difflib.SequenceMatcher` is embedded without the
`autojunk` heuristic, which is inert for strings shorter than 200 characters;
every concrete input below is far below that bound, and theorems about
ratio values are stated for that regime.  Float similarity thresholds
(`0.8`, `0.75`) are modelled exactly as rationals via cross-multiplied
integer comparisons; the document-count threshold `int(0.7 * total_pdfs)` is
modelled bit-exactly under IEEE-754 double semantics (`pyInt07`):
round-to-nearest-even at 53 bits of precision for the int-to-float
conversion and for the product with the double nearest 0.7, then truncation
(e.g. `int(0.7 * 90) = 62`, not 63).
-/

/-- Whitespace for Python's `str.strip` / regex `\s` (ASCII whitespace plus
the no-break space `\xa0`; full Unicode whitespace is not modelled). -/
def wsChars : List Char := [' ', '\t', '\n', '\r', Char.ofNat 11, Char.ofNat 12, Char.ofNat 160]

def isSpaceC (c : Char) : Bool := c ∈ wsChars

/-- Python `str.lower`, modelled on the ASCII letters. -/
def lowerPairs : List (Char × Char) :=
  [('A','a'), ('B','b'), ('C','c'), ('D','d'), ('E','e'), ('F','f'), ('G','g'),
   ('H','h'), ('I','i'), ('J','j'), ('K','k'), ('L','l'), ('M','m'), ('N','n'),
   ('O','o'), ('P','p'), ('Q','q'), ('R','r'), ('S','s'), ('T','t'), ('U','u'),
   ('V','v'), ('W','w'), ('X','x'), ('Y','y'), ('Z','z')]

def lowerC (c : Char) : Char :=
  match lowerPairs.find? (fun p => p.1 = c) with
  | some p => p.2
  | none => c

def lowerL (s : List Char) : List Char := s.map lowerC

/-- `re.sub(r'\s+', ' ', s)`: collapse every whitespace run to one space.
The flag records whether the previous character was whitespace. -/
def collapseWsGo : Bool → List Char → List Char
  | _, [] => []
  | prevSp, c :: cs =>
    if isSpaceC c then
      if prevSp then collapseWsGo true cs else ' ' :: collapseWsGo true cs
    else c :: collapseWsGo false cs

def collapseWs (s : List Char) : List Char := collapseWsGo false s

/-- Python `str.strip()`. -/
def stripL (s : List Char) : List Char :=
  ((s.dropWhile isSpaceC).reverse.dropWhile isSpaceC).reverse

def pyStrip (s : String) : String := ⟨stripL s.data⟩

def pyLower (s : String) : String := ⟨lowerL s.data⟩

/-! ## difflib.SequenceMatcher

`cpl` is the length of the common prefix of two suffixes; `bestMatch` scans
all candidate block starts in row-major order keeping the first strict
maximum, which reproduces `find_longest_match`'s documented tie-breaking
(longest block, then earliest in `a`, then earliest in `b`).  `smT` is the
total size of the recursively collected matching blocks; `get_matching_blocks`
recurses on the regions left and right of the best block.  Fuel `a.length + 1`
over-approximates the recursion depth. -/

def cpl : List Char → List Char → Nat
  | x :: xs, y :: ys => if x = y then cpl xs ys + 1 else 0
  | _, _ => 0

def bmStep (a b : List Char) (best : Nat × Nat × Nat) (c : Nat × Nat) : Nat × Nat × Nat :=
  let k := cpl (a.drop c.1) (b.drop c.2)
  if best.2.2 < k then (c.1, c.2, k) else best

def bmCandidates (a b : List Char) : List (Nat × Nat) :=
  (List.range a.length).flatMap (fun i => (List.range b.length).map (Prod.mk i))

def bestMatch (a b : List Char) : Nat × Nat × Nat :=
  (bmCandidates a b).foldl (bmStep a b) (0, 0, 0)

def smTGo : Nat → List Char → List Char → Nat
  | 0, _, _ => 0
  | fuel + 1, a, b =>
    let m := bestMatch a b
    if m.2.2 = 0 then 0
    else
      smTGo fuel (a.take m.1) (b.take m.2.1) + m.2.2 +
        smTGo fuel (a.drop (m.1 + m.2.2)) (b.drop (m.2.1 + m.2.2))

/-- Total size of the matching blocks found by `SequenceMatcher`. -/
def smT (a b : List Char) : Nat := smTGo (a.length + 1) a b

/-- `SequenceMatcher.ratio()` as an exact rational: `2M / T`, and `1` when
both strings are empty (difflib's `_calculate_ratio`). -/
def smRatioQ (a b : List Char) : ℚ :=
  if a.length + b.length = 0 then 1
  else (2 * smT a b : ℚ) / (a.length + b.length)

/-- `ratio() > num/100`, compared exactly by cross-multiplication
(both sides are exact rationals; no float rounding can flip the comparison
at the thresholds used by the scripts). -/
def ratioGtH (a b : List Char) (num : Nat) : Bool :=
  if a.length + b.length = 0 then decide (num < 100)
  else decide (num * (a.length + b.length) < 100 * (2 * smT a b))

/-- `ratio() >= num/100`, compared exactly by cross-multiplication. -/
def ratioGeH (a b : List Char) (num : Nat) : Bool :=
  if a.length + b.length = 0 then decide (num ≤ 100)
  else decide (num * (a.length + b.length) ≤ 100 * (2 * smT a b))

/-- `text_similarity` of `1-report.py` / `1A-report.py`:
`SequenceMatcher(None, text1, text2).ratio()`. -/
def text_similarity (a b : String) : ℚ := smRatioQ a.data b.data

/-- `compute_text_similarity` of `0B-1-match.py`: the same ratio times 100. -/
def compute_text_similarity (a b : String) : ℚ := smRatioQ a.data b.data * 100

/-! ## normalize_firm_name (`sl-api-vis.py` = `y-api.py`) -/

def removeDotComma (s : List Char) : List Char :=
  s.filter (fun c => !(c = '.' || c = ','))

/-- The corporate suffixes, in the order the Python loop checks them. -/
def firmSuffixes : List (List Char) :=
  [" inc".data, " llc".data, " corporation".data, " corp".data, " co".data]

/-- One iteration of the suffix loop: `if n.endswith(suffix): n = n[:-len(suffix)].strip()`. -/
def chopSuffix (suf n : List Char) : List Char :=
  if suf.isSuffixOf n then stripL (n.take (n.length - suf.length)) else n

def applySuffixes (n : List Char) : List Char :=
  chopSuffix " co".data (chopSuffix " corp".data (chopSuffix " corporation".data
    (chopSuffix " llc".data (chopSuffix " inc".data n))))

/-- The normalization pipeline on character lists: collapse whitespace and
strip, lowercase, drop periods and commas, then strip the corporate suffixes
in order. -/
def normalizeCore (l : List Char) : List Char :=
  applySuffixes (removeDotComma (lowerL (stripL (collapseWs l))))

/-- `normalize_firm_name` of `sl-api-vis.py` / `y-api.py`. -/
def normalize_firm_name (name : String) : String :=
  ⟨normalizeCore name.data⟩

/-! ## similar_address -/

/-- `re.search(r'\d+', s)`: the first maximal digit run, if any. -/
def firstDigitRun : List Char → Option (List Char)
  | [] => none
  | c :: cs =>
    if c.isDigit then some (c :: cs.takeWhile Char.isDigit) else firstDigitRun cs

/-- `similar_address` of `y-api.py`: empty inputs are dissimilar; differing
first digit runs veto; otherwise compare lowercased strings with
`ratio() > 0.8`. -/
def similar_address_y (addr1 addr2 : String) : Bool :=
  if addr1.data = [] || addr2.data = [] then false
  else
    match firstDigitRun addr1.data, firstDigitRun addr2.data with
    | some n1, some n2 =>
      if n1 ≠ n2 then false else ratioGtH (lowerL addr1.data) (lowerL addr2.data) 80
    | _, _ => ratioGtH (lowerL addr1.data) (lowerL addr2.data) 80

/-- Case-insensitive literal match: consumes `lit` (given lowercased) from the
front of the input, returning the remainder. -/
def matchLitCI : List Char → List Char → Option (List Char)
  | [], rest => some rest
  | _ :: _, [] => none
  | l :: ls, c :: cs => if lowerC c = l then matchLitCI ls cs else none

/-- Match `(apt|suite|unit)\s*\.?\s*\d+` (IGNORECASE) at the head of the
input, returning the remainder after the match.  The character classes
(whitespace, dot, digits) are disjoint, so greedy matching is deterministic
and regex backtracking can never succeed where this fails. -/
def matchQualAt (s : List Char) : Option (List Char) :=
  match matchLitCI "apt".data s, matchLitCI "suite".data s, matchLitCI "unit".data s with
  | some r, _, _ => matchQualTail r
  | none, some r, _ => matchQualTail r
  | none, none, some r => matchQualTail r
  | none, none, none => none
where
  matchQualTail (r : List Char) : Option (List Char) :=
    let r1 := r.dropWhile isSpaceC
    let r2 := match r1 with
      | '.' :: t => t
      | _ => r1
    let r3 := r2.dropWhile isSpaceC
    match r3 with
    | d :: _ => if d.isDigit then some (r3.dropWhile Char.isDigit) else none
    | [] => none

/-- `re.sub(r'(apt|suite|unit)\s*\.?\s*\d+', '', s, flags=IGNORECASE)`:
left-to-right scan deleting each non-overlapping match.  Each step consumes at
least one character, so fuel `s.length` suffices. -/
def stripQualGo : Nat → List Char → List Char
  | 0, _ => []
  | _ + 1, [] => []
  | fuel + 1, c :: cs =>
    match matchQualAt (c :: cs) with
    | some rest => stripQualGo fuel rest
    | none => c :: stripQualGo fuel cs

def stripQualifiers (s : List Char) : List Char := stripQualGo s.length s

/-- `similar_address` of `sl-api-vis.py`: strip apartment/suite/unit
qualifiers and surrounding whitespace first, then apply the digit-run veto
and the `ratio() > 0.8` comparison to the cleaned strings. -/
def similar_address_sl (addr1 addr2 : String) : Bool :=
  if addr1.data = [] || addr2.data = [] then false
  else
    match firstDigitRun (stripL (stripQualifiers addr1.data)),
        firstDigitRun (stripL (stripQualifiers addr2.data)) with
    | some n1, some n2 =>
      if n1 ≠ n2 then false
      else ratioGtH (lowerL (stripL (stripQualifiers addr1.data)))
        (lowerL (stripL (stripQualifiers addr2.data))) 80
    | _, _ => ratioGtH (lowerL (stripL (stripQualifiers addr1.data)))
        (lowerL (stripL (stripQualifiers addr2.data))) 80

/-! ## Award records and the duplicate-entity graph resolvers

An award record, with the fields the resolvers read (`award.get(k)` returning
`None` or a string is an `Option String`). -/

structure Award where
  firm : String
  company_url : Option String
  poc_phone : Option String
  pi_phone : Option String
  address1 : Option String
deriving DecidableEq, Repr

/-- `(award.get(field) or "").strip()`. -/
def fieldVal (o : Option String) : String := pyStrip (o.getD "")

/-- `if v and v.lower() != "none"`: the guard applied to every stripped
attribute before it may index a record. -/
def attrOk (v : String) : Bool := !(v = "") && !(pyLower v = "none")

def urlVal (a : Award) : String := fieldVal a.company_url

def addrVal (a : Award) : String := fieldVal a.address1

/-- The valid phone values of a record, scanning `poc_phone` then `pi_phone`
exactly as the Python loop does. -/
def phoneVals (a : Award) : List String :=
  ([a.poc_phone, a.pi_phone].map fieldVal).filter attrOk

def firmKey (a : Award) : String := normalize_firm_name a.firm

/-- Out-of-range indices yield an all-empty record (which every validity
guard rejects), so index arithmetic below stays total. -/
def awardAt (awards : List Award) (i : Nat) : Award :=
  awards.getD i ⟨"", none, none, none, none⟩

/-- An edge justification, tagged with the literal shared/matched value(s);
`render` recovers the exact reason string the script stores. -/
inductive Reason where
  | shared_url (u : String)
  | shared_phone (p : String)
  | similar_address (a1 a2 : String)
deriving DecidableEq, Repr

def Reason.render : Reason → String
  | .shared_url u => "shared_url:" ++ u
  | .shared_phone p => "shared_phone:" ++ p
  | .similar_address a1 a2 => "similar_address:" ++ a1 ++ " vs " ++ a2

/-- The distinct phone values shared by records `i` and `j` (each shared value
produces one `shared_phone` reason in the script's reason set). -/
def sharedPhones (awards : List Award) (i j : Nat) : List String :=
  ((phoneVals (awardAt awards i)).filter
    (fun p => p ∈ phoneVals (awardAt awards j))).dedup

/-- The reason set `edge_reasons[(i, j)]` of `sl-api-vis.py`'s
`find_duplicate_components`, for a sorted pair `i < j` of in-range indices:
`add_edge_if_firms_differ` records a reason only when the normalized firm
names differ, for each shared URL, each shared phone value, and a fuzzy
address match (the address loop runs over `i < j` and formats the reason as
`addr_i vs addr_j`). -/
def edgeReasons (awards : List Award) (i j : Nat) : List Reason :=
  if i < j ∧ j < awards.length then
    if firmKey (awardAt awards i) = firmKey (awardAt awards j) then []
    else
      (if attrOk (urlVal (awardAt awards i)) ∧ attrOk (urlVal (awardAt awards j)) ∧
          urlVal (awardAt awards i) = urlVal (awardAt awards j)
       then [Reason.shared_url (urlVal (awardAt awards i))] else []) ++
      (sharedPhones awards i j).map Reason.shared_phone ++
      (if attrOk (addrVal (awardAt awards i)) ∧ attrOk (addrVal (awardAt awards j)) ∧
          similar_address_sl (addrVal (awardAt awards i)) (addrVal (awardAt awards j))
       then [Reason.similar_address (addrVal (awardAt awards i)) (addrVal (awardAt awards j))]
       else [])
  else []

/-- Adjacency in `sl-api-vis.py`'s graph: the script stores both directions of
every justified edge. -/
def slAdjacent (awards : List Award) (i j : Nat) : Bool :=
  edgeReasons awards (min i j) (max i j) ≠ []

/-- The neighbour set `graph[i]`, enumerated in ascending order (Python
iterates a `set` of small ints; the spec leaves traversal order open). -/
def slNeighbors (awards : List Award) (i : Nat) : List Nat :=
  (List.range awards.length).filter (fun j => slAdjacent awards i j)

/-- The iterative stack DFS of `find_duplicate_components`: pop, skip if seen,
otherwise mark seen, append to the component, and push the unseen neighbours
(the last-pushed neighbour is popped first).  Returns the component and the
updated `seen` set.  Fuel bounds the pop count. -/
def dfsGo (awards : List Award) :
    Nat → List Nat → List Nat → List Nat → List Nat × List Nat
  | 0, _, seen, comp => (comp, seen)
  | _ + 1, [], seen, comp => (comp, seen)
  | fuel + 1, cur :: stack, seen, comp =>
    if cur ∈ seen then dfsGo awards fuel stack seen comp
    else
      dfsGo awards fuel
        (((slNeighbors awards cur).filter (fun n => !(n ∈ seen ∨ n = cur))).reverse ++ stack)
        (cur :: seen) (comp ++ [cur])

/-- Every pop either discards a seen node or marks a new one (pushing at most
`n` neighbours), so `n * n + n + 1` pops always drain the stack. -/
def dfsFuel (n : Nat) : Nat := n * n + n + 1

/-- The outer loop: start a DFS at every index not yet seen, threading the
`seen` set through, collecting every (unfiltered) component. -/
def componentsAll (awards : List Award) : List (List Nat) :=
  ((List.range awards.length).foldl
    (fun st i =>
      if i ∈ st.2 then st
      else
        let r := dfsGo awards (dfsFuel awards.length) [i] st.2 []
        (st.1 ++ [r.1], r.2))
    (([] : List (List Nat)), ([] : List Nat))).1

/-- The number of distinct normalized firm names in a component. -/
def distinctFirmCount (awards : List Award) (comp : List Nat) : Nat :=
  ((comp.map (fun i => firmKey (awardAt awards i))).dedup).length

/-- The per-pair reason map a component carries: every sorted in-component
pair that is in `edge_reasons` (the traversal visits each such pair from both
endpoints and copies its reason set). -/
def componentReasons (awards : List Award) (comp : List Nat) :
    List ((Nat × Nat) × List Reason) :=
  (comp.flatMap (fun i => comp.map (Prod.mk i))).filterMap
    (fun p =>
      if p.1 < p.2 ∧ edgeReasons awards p.1 p.2 ≠ [] then
        some ((p.1, p.2), edgeReasons awards p.1 p.2)
      else none)

/-- `find_duplicate_components` of `sl-api-vis.py` (minus the red-flag
aggregation, which no claim touches): drop `None` rows, build the justified
graph, traverse components, and keep those with at least two rows and more
than one distinct normalized firm name, paired with their edge reasons. -/
def find_duplicate_components_sl (awards0 : List (Option Award)) :
    List (List Nat × List ((Nat × Nat) × List Reason)) :=
  let awards := awards0.reduceOption
  (componentsAll awards).filterMap
    (fun comp =>
      if 2 ≤ comp.length ∧ 1 < distinctFirmCount awards comp then
        some (comp, componentReasons awards comp)
      else none)

/-! ## The `y-api.py` variant of the graph

`y-api.py` gates URL and phone edges at the *group* level: once a URL (or
phone) group contains more than one distinct normalized firm name, every
ordered pair of distinct indices inside the group is linked — including pairs
whose firm names coincide.  Only the address pass checks firm names per
pair. -/

/-- The index group `url_to_indices[u]`. -/
def urlGroup (awards : List Award) (u : String) : List Nat :=
  (List.range awards.length).filter
    (fun k => attrOk (urlVal (awardAt awards k)) ∧ urlVal (awardAt awards k) = u)

/-- The index group `phone_to_indices[p]` (an index qualifies through either
phone field). -/
def phoneGroup (awards : List Award) (p : String) : List Nat :=
  (List.range awards.length).filter (fun k => p ∈ phoneVals (awardAt awards k))

/-- `len(set(firms)) > 1` for the firms of a group. -/
def groupFirmsDiffer (awards : List Award) (g : List Nat) : Bool :=
  1 < ((g.map (fun k => firmKey (awardAt awards k))).dedup).length

def yUrlEdge (awards : List Award) (i j : Nat) : Bool :=
  i ≠ j ∧ i < awards.length ∧ j < awards.length ∧
    attrOk (urlVal (awardAt awards i)) ∧ attrOk (urlVal (awardAt awards j)) ∧
    urlVal (awardAt awards i) = urlVal (awardAt awards j) ∧
    groupFirmsDiffer awards (urlGroup awards (urlVal (awardAt awards i)))

def yPhoneEdge (awards : List Award) (i j : Nat) : Bool :=
  i ≠ j && i < awards.length && j < awards.length &&
    (phoneVals (awardAt awards i)).any
      (fun p => p ∈ phoneVals (awardAt awards j) ∧
        groupFirmsDiffer awards (phoneGroup awards p))

/-- The address pass of `y-api.py`, over `i < j`, with its per-pair firm
check. -/
def yAddrEdge (awards : List Award) (i j : Nat) : Bool :=
  i < j ∧ j < awards.length ∧
    attrOk (addrVal (awardAt awards i)) ∧ attrOk (addrVal (awardAt awards j)) ∧
    similar_address_y (addrVal (awardAt awards i)) (addrVal (awardAt awards j)) ∧
    firmKey (awardAt awards i) ≠ firmKey (awardAt awards j)

/-- Adjacency in `y-api.py`'s graph (edges are stored in both directions). -/
def yAdjacent (awards : List Award) (i j : Nat) : Bool :=
  yUrlEdge awards i j || yPhoneEdge awards i j ||
    yAddrEdge awards (min i j) (max i j)

/-- The neighbour set `graph[i]` of `y-api.py`. -/
def yNeighbors (awards : List Award) (i : Nat) : List Nat :=
  (List.range awards.length).filter (fun j => yAdjacent awards i j)

/-! ## Images and `compute_image_similarity` (`0B-1-match.py`) -/

structure Image where
  page : Nat
  image_file : String
  hash : String
  position : String
deriving DecidableEq, Repr

/-- `set(img["hash"] for img in images)`, as a duplicate-free list. -/
def hashSetOf (images : List Image) : List String :=
  (images.map Image.hash).dedup

/-- `len(hashes1.intersection(hashes2))`. -/
def interSize (images1 images2 : List Image) : Nat :=
  ((hashSetOf images1).filter (fun h => h ∈ hashSetOf images2)).length

/-- `len(hashes1.union(hashes2))`. -/
def unionSize (images1 images2 : List Image) : Nat :=
  (hashSetOf images1 ++ (hashSetOf images2).filter (fun h => ¬ h ∈ hashSetOf images1)).length

/-- `compute_image_similarity`: `0.0` when either document has no images,
otherwise `len(common)/len(union) * 100` (guarded by `total > 0`). -/
def compute_image_similarity (images1 images2 : List Image) : ℚ :=
  if images1.isEmpty || images2.isEmpty then 0
  else if 0 < unionSize images1 images2 then
    (interSize images1 images2 : ℚ) / (unionSize images1 images2 : ℚ) * 100
  else 0

/-! ## `1A-report.py`: sentence and image matching with the page window -/

/-- `clean_text`: lowercase, collapse `\s+` (which already covers `\xa0`),
replace any remaining no-break space, strip. -/
def clean_text (s : String) : String :=
  ⟨stripL ((collapseWs (lowerL s.data)).map (fun c => if c = Char.ofNat 160 then ' ' else c))⟩

/-- `re.split(r'(?<=[.!?])\s+', s)` (generalised over the punctuation class):
cut after a punctuation character followed by whitespace, consuming the
whitespace run.  `acc` holds the current piece reversed.  Every step shortens
the remaining input, so fuel `s.length` makes the scan total (the zero-fuel
case is never reached from `splitAfterPunct`). -/
def splitAPGo (punct : List Char) : Nat → List Char → List Char → List (List Char)
  | 0, acc, _ => [acc.reverse]
  | _ + 1, acc, [] => [acc.reverse]
  | _ + 1, acc, [c] => [(c :: acc).reverse]
  | fuel + 1, acc, c :: d :: rest =>
    if c ∈ punct && isSpaceC d then
      (c :: acc).reverse :: splitAPGo punct fuel [] (rest.dropWhile isSpaceC)
    else splitAPGo punct fuel (c :: acc) (d :: rest)

def splitAfterPunct (punct : List Char) (acc s : List Char) : List (List Char) :=
  splitAPGo punct s.length acc s

/-- The sentences of one page: split the cleaned text after `.`/`!`/`?`,
keep pieces longer than 50 characters, and strip each kept piece. -/
def pageSentences (page : Nat) (text : String) : List (Nat × String) :=
  ((splitAfterPunct ['.', '!', '?'] [] (clean_text text).data).filter
    (fun s => 50 < s.length)).map (fun s => (page, (⟨stripL s⟩ : String)))

/-- `max(map(int, text_by_page.keys()))`, with `0` for an empty mapping
(where the script would raise and emit nothing). -/
def maxKey (tbp : List (Nat × String)) : Nat :=
  (tbp.map Prod.fst).foldl max 0

/-- `sent1[:200] + "..."`. -/
def truncate200 (s : String) : String := ⟨s.data.take 200⟩ ++ "..."

/-- `extract_matching_sentences` of `1A-report.py`: pages with
`page < 9 or page > max_page - 11` are skipped on both sides; every
cross-document sentence pair with `ratio() >= 0.75` is emitted with its page
provenance. -/
def extract_matching_sentences (tbp1 tbp2 : List (Nat × String)) :
    List (Nat × Nat × String) :=
  tbp1.flatMap (fun pt1 =>
    if pt1.1 < 9 ∨ maxKey tbp1 - 11 < pt1.1 then []
    else
      tbp2.flatMap (fun pt2 =>
        if pt2.1 < 9 ∨ maxKey tbp2 - 11 < pt2.1 then []
        else
          (pageSentences pt1.1 pt1.2).flatMap (fun ps1 =>
            (pageSentences pt2.1 pt2.2).filterMap (fun ps2 =>
              if ratioGeH ps1.2.data ps2.2.data 75 then
                some (ps1.1, ps2.1, truncate200 ps1.2)
              else none))))

/-- `compare_images`: a match exactly when the two perceptual hashes are
equal, carrying both pages and both grid positions. -/
def compare_images (i1 i2 : Image) : Option (Nat × Nat × String × String) :=
  if i1.hash = i2.hash then some (i1.page, i2.page, i1.position, i2.position) else none

/-- `process_image_comparison` of `1A-report.py`: the same
`page < 9 or page > max_page - 11` window on both sides, then exact hash
comparison of every surviving image pair. -/
def process_image_comparison (images1 images2 : List Image) (m1 m2 : Nat) :
    List (Nat × Nat × String × String) :=
  images1.flatMap (fun i1 =>
    if i1.page < 9 ∨ m1 - 11 < i1.page then []
    else
      images2.filterMap (fun i2 =>
        if i2.page < 9 ∨ m2 - 11 < i2.page then none
        else compare_images i1 i2))

/-! ## `0A-template.py`: phrase-level boilerplate detection

A corpus is a `List (List String)` — one entry per PDF, holding its per-page
extracted text. -/

/-- `\w` of `re` (ASCII model): letters, digits, underscore. -/
def isWordC (c : Char) : Bool := c.isAlphanum || c = '_'

def cptPunct : List Char := ['.', ',', '!', '?', ';', ':']

/-- The sentence-split class of `re.split(r"(?<=[.!?;:])\s+", ...)` — unlike
`cptPunct` it has no comma. -/
def sentPunct0A : List Char := ['.', '!', '?', ';', ':']

/-- `re.sub(r"([.,!?;:])([^\s])", r"\1 \2", s)`: one left-to-right pass; the
matched non-space character is consumed, so insertions never cascade. -/
def addSpacePunct : List Char → List Char
  | [] => []
  | [c] => [c]
  | c :: d :: rest =>
    if c ∈ cptPunct && !isSpaceC d then c :: ' ' :: d :: addSpacePunct rest
    else c :: addSpacePunct (d :: rest)

/-- `clean_page_text`: lowercase and strip, drop characters outside
`\w\s.,!?;:`, space out punctuation, collapse whitespace, strip. -/
def cleanPageText (s : String) : String :=
  ⟨stripL (collapseWs (addSpacePunct
    ((stripL (lowerL s.data)).filter (fun c => isWordC c || isSpaceC c || c ∈ cptPunct))))⟩

/-- Python `str.split()`: whitespace-separated, empty words discarded.
`cur` holds the current word reversed. -/
def pyWordsGo (cur : List Char) : List Char → List String
  | [] => if cur = [] then [] else [(⟨cur.reverse⟩ : String)]
  | c :: cs =>
    if isSpaceC c then
      if cur = [] then pyWordsGo [] cs else (⟨cur.reverse⟩ : String) :: pyWordsGo [] cs
    else pyWordsGo (c :: cur) cs

def pyWords (s : List Char) : List String := pyWordsGo [] s

/-- The 6-word sliding-window phrases of one page:
`for i in range(len(words) - 6): " ".join(words[i:i+6])` — note the source's
window start range drops the final position `len(words) - 6`. -/
def phrasesOfPage (text : String) : List String :=
  let ws := pyWords (cleanPageText text).data
  (List.range (ws.length - 6)).map
    (fun i => String.intercalate " " ((ws.drop i).take 6))

/-- `phrase_count[phrase] += 1` on a `defaultdict(int)` modelled as an
association list (new keys are appended, preserving dict insertion order). -/
def bump (m : List (String × Nat)) (p : String) : List (String × Nat) :=
  match m with
  | [] => [(p, 1)]
  | e :: es => if e.1 = p then (e.1, e.2 + 1) :: es else e :: bump es p

/-- The phrase counter after scanning every page of every document: each
occurrence counts, with no per-document deduplication. -/
def phraseCountMap (docs : List (List String)) : List (String × Nat) :=
  docs.foldl (fun m pages => pages.foldl (fun m page => (phrasesOfPage page).foldl bump m) m) []

/-- The number of binary digits of a natural number (`int.bit_length`).
Fuel `n` bounds the halving chain, so the scan is structural. -/
def bitLenGo : Nat → Nat → Nat
  | 0, _ => 0
  | fuel + 1, n => if n = 0 then 0 else bitLenGo fuel (n / 2) + 1

def bitLen (n : Nat) : Nat := bitLenGo n n

/-- Round `m / 2 ^ s` to the nearest integer, ties to even — the IEEE-754
rounding step. -/
def rne (m s : Nat) : Nat :=
  if s = 0 then m
  else
    if 2 ^ (s - 1) < m % 2 ^ s then m / 2 ^ s + 1
    else if m % 2 ^ s < 2 ^ (s - 1) then m / 2 ^ s
    else if m / 2 ^ s % 2 = 0 then m / 2 ^ s else m / 2 ^ s + 1

/-- The 53-bit mantissa numerator of the double nearest 0.7:
`0.7 * 2 ^ 53 = 6305039478318694.4` rounds to this, so the double value of
the literal `0.7` is `6305039478318694 / 2 ^ 53`. -/
def fl07num : Nat := 6305039478318694

/-- `float(n)`: round a natural number to 53 significant bits
(round-to-nearest-even), as CPython's int-to-float conversion does. -/
def flN (n : Nat) : Nat := rne n (bitLen n - 53) * 2 ^ (bitLen n - 53)

/-- `int(0.7 * n)` under exact IEEE-754 double semantics: convert `n` to a
double, multiply by the double nearest 0.7 with round-to-nearest-even at 53
significant bits, and truncate.  This reproduces CPython bit-for-bit for
every corpus size the program can process (overflow to infinity would need
more than `2 ^ 1024` documents, where CPython raises instead of returning a
threshold): in particular `pyInt07 90 = 62` while the exact rational floor
would give 63. -/
def pyInt07 (n : Nat) : Nat :=
  rne (fl07num * flN n) (bitLen (fl07num * flN n) - 53) *
    2 ^ (bitLen (fl07num * flN n) - 53) / 2 ^ 53

/-- `phrase_threshold = int(0.7 * total_pdfs)`. -/
def phraseThreshold (total : Nat) : Nat := pyInt07 total

/-- `detected_template_phrases = {phrase | count >= phrase_threshold}`. -/
def detectedTemplatePhrases (docs : List (List String)) : List String :=
  (phraseCountMap docs).filterMap
    (fun e => if phraseThreshold docs.length ≤ e.2 then some e.1 else none)

/-- The total number of occurrences of a phrase across all pages of all
documents (the quantity the script actually thresholds). -/
def phraseOcc (docs : List (List String)) (p : String) : Nat :=
  (docs.flatMap (fun pages => pages.flatMap phrasesOfPage)).count p

/-- Modelled from the spec: the *document frequency* of a phrase — the number
of documents containing it at least once (the "count once per document even if
repeated on multiple pages" reading of the claim). -/
def docFreq (docs : List (List String)) (p : String) : Nat :=
  (docs.filter (fun pages => p ∈ pages.flatMap phrasesOfPage)).length

/-- Modelled from the spec: a phrase is boilerplate when its document
frequency reaches `max(2, floor(0.7 * total_documents))`. -/
def specPhraseBoilerplate (docs : List (List String)) (p : String) : Prop :=
  max 2 (7 * docs.length / 10) ≤ docFreq docs p

/-- STEP 3 of `find_common_text`: re-clean each page, split into sentences on
`(?<=[.!?;:])\s+` (stripped, non-empty), drop the first and last sentence when
more than two, strip a detected 6-word template prefix from each remaining
sentence, and keep pages with any sentence left, joined by `". "`.
(`words[:6] == template_phrase.split()` holds for some detected phrase exactly
when the page has at least six words and their join is detected: every
detected phrase is the space-join of six non-empty space-free words.) -/
def find_common_text (docs : List (List String)) : List String :=
  let detected := detectedTemplatePhrases docs
  docs.flatMap (fun pages =>
    pages.filterMap (fun page =>
      let pieces := splitAfterPunct sentPunct0A [] (cleanPageText page).data
      let sentences := ((pieces.map stripL).filter (fun s => s ≠ [])).map
        (fun s => (⟨s⟩ : String))
      let sentences := if 2 < sentences.length then (sentences.drop 1).dropLast else sentences
      let cleaned := sentences.map (fun sent =>
        let ws := pyWords sent.data
        let ws := if 6 ≤ ws.length ∧ String.intercalate " " (ws.take 6) ∈ detected
                  then ws.drop 6 else ws
        String.intercalate " " ws)
      if cleaned ≠ [] then some (String.intercalate ". " cleaned) else none))

/-- The observable outcome of `0A-template.py`'s `main`: either the explicit
refusal (fewer than two PDFs: warn and return before any output is written),
or the template-text corpus that gets persisted. -/
inductive TemplateOutcome where
  | refused
  | completed (templateText : List String)
deriving DecidableEq, Repr

/-- `main` of `0A-template.py`, given the extracted per-document page text. -/
def templateMain (docs : List (List String)) : TemplateOutcome :=
  if docs.length < 2 then .refused else .completed (find_common_text docs)

/-! ## Auxiliary definitions used by the theorems -/

/-- A sentinel attribute value in the sense of the resolvers' guards: the
field is missing, whitespace-only, or `"none"` case-insensitively after
stripping. -/
def sentinelAttr (o : Option String) : Prop :=
  pyStrip (o.getD "") = "" ∨ pyLower (pyStrip (o.getD "")) = "none"

/-- The count stored for a key in an association list (0 when absent). -/
def lookupN (m : List (String × Nat)) (p : String) : Nat :=
  match m.find? (fun e => e.1 = p) with
  | some e => e.2
  | none => 0

/-- All window phrases of a corpus, in scan order. -/
def allPhrases (docs : List (List String)) : List String :=
  docs.flatMap (fun pages => pages.flatMap phrasesOfPage)

/-! Concrete inputs used by the individual claims. -/

/-- Three records sharing one URL: two normalize to the same firm name
(`acme`), the third differs, so the URL group's firm set has two elements. -/
def awardsSharedUrl : List Award :=
  [⟨"Acme Inc", some "x.com", none, none, none⟩,
   ⟨"Acme LLC", some "x.com", none, none, none⟩,
   ⟨"Zenith", some "x.com", none, none, none⟩]

/-- The two-record input of the spec's worked example: D(firm="Acme",
phone="555-3333") and E(firm="Zenith", phone="555-3333"). -/
def awardsPhonePair : List (Option Award) :=
  [some ⟨"Acme", none, some "555-3333", none, none⟩,
   some ⟨"Zenith", none, some "555-3333", none, none⟩]

/-- The same two records as plain rows (after the `None` filter). -/
def rowsPhonePair : List Award :=
  [⟨"Acme", none, some "555-3333", none, none⟩,
   ⟨"Zenith", none, some "555-3333", none, none⟩]

/-- A two-document corpus whose first document contains one 7-word page (one
window phrase, one occurrence) and whose second document shares nothing. -/
def corpusOnePhrase : List (List String) := [["a b c d e f g"], ["zzz"]]

/-- A 60-character sentence (clean, single-sentence page text). -/
def sentSixty : String :=
  "aaaaaaaaaa bbbbbbbbbb cccccccccc dddddddddd eeeeeeeeee ffff."

/-- A 30-page document mapping: the sentence sits on page 15, inside the
window the code keeps (pages 9 … 30 - 11 = 19). -/
def tbpMiddle : List (Nat × String) := [(15, sentSixty), (30, "x")]

/-- One image on page 20 of a 40-page document, for each side. -/
def imagesMidA : List Image := [⟨20, "f1", "h", "TL"⟩]

def imagesMidB : List Image := [⟨20, "f2", "h", "TR"⟩]

/-- Documents with hash sets {h1,h2} and {h2,h3}. -/
def imagesH12 : List Image := [⟨1, "f1", "h1", "TL"⟩, ⟨2, "f2", "h2", "TL"⟩]

def imagesH23 : List Image := [⟨1, "g1", "h2", "TL"⟩, ⟨2, "g2", "h3", "TL"⟩]

/-! ## Claim C1 -/

set_option maxRecDepth 8000 in
/-- C1: the claim states that `find_duplicate_components` never creates an
edge between two records with identical normalized firm names.  The
`y-api.py` implementation violates this (contradicting its own docstring):
with three records sharing the URL `x.com` and firms "Acme Inc", "Acme LLC",
"Zenith", the URL group holds two distinct normalized firm names, so the code
links *every* pair in the group — including the edge 0–1 between the two
records that both normalize to "acme". -/
theorem c1_yapi_links_same_firm_records :
    1 ∈ yNeighbors awardsSharedUrl 0 ∧
    0 ∈ yNeighbors awardsSharedUrl 1 ∧
    normalize_firm_name "Acme Inc" = normalize_firm_name "Acme LLC" := by
  decide

/-! ## Claim C2 -/

set_option maxRecDepth 8000 in
/-- C2: on D(firm="Acme", phone="555-3333") and E(firm="Zenith",
phone="555-3333") the `sl-api-vis.py` resolver links D and E in both
directions (one undirected edge), reports exactly one duplicate group
containing both records, and tags the edge with the single reason
`shared_phone:555-3333`. -/
theorem c2_phone_pair_single_group :
    find_duplicate_components_sl awardsPhonePair =
      [([0, 1], [((0, 1), [Reason.shared_phone "555-3333"])])] ∧
    slNeighbors rowsPhonePair 0 = [1] ∧
    slNeighbors rowsPhonePair 1 = [0] ∧
    (Reason.shared_phone "555-3333").render = "shared_phone:555-3333" := by
  decide

/-! ## Claim C9 -/

/-- C9: the template detector's `main` refuses to run — producing no
template-text output at all, rather than an empty corpus — exactly when fewer
than two documents are available. -/
theorem c9_refuses_below_two_documents (docs : List (List String)) :
    templateMain docs = TemplateOutcome.refused ↔ docs.length < 2 := by
  unfold templateMain
  split <;> simp_all

/-! ## Claim C3 -/

set_option maxRecDepth 8000 in
/-- C3 counterexample: the claim says `similar_address` returns False whenever
both addresses contain digit runs and the first runs differ.  The
`sl-api-vis.py` variant strips `apt/suite/unit` qualifiers *before* extracting
digit runs: for "apt 5 abcdef" vs "7 abcdef" the raw digit runs are 5 and 7
(different), yet the cleaned left side loses its digits and the ratio test
fires, so the function returns True. -/
theorem c3_counterexample_apt_qualifier :
    similar_address_sl "apt 5 abcdef" "7 abcdef" = true ∧
    firstDigitRun "apt 5 abcdef".data = some ['5'] ∧
    firstDigitRun "7 abcdef".data = some ['7'] ∧
    (['5'] : List Char) ≠ ['7'] ∧
    "apt 5 abcdef" ≠ "" ∧ "7 abcdef" ≠ "" := by
  decide

/-- C3 amended: the digit-run veto holds with the runs read exactly where
each variant extracts them — `y-api.py` reads them from the raw addresses
(the claim as stated), `sl-api-vis.py` from the addresses after the
apartment/suite/unit qualifiers are stripped.  In both cases, differing first
digit runs force a False verdict regardless of the string similarity. -/
theorem c3_digit_veto_amended :
    (∀ a1 a2 : String, ∀ d1 d2 : List Char,
      firstDigitRun a1.data = some d1 → firstDigitRun a2.data = some d2 →
      d1 ≠ d2 → similar_address_y a1 a2 = false) ∧
    (∀ a1 a2 : String, ∀ d1 d2 : List Char,
      firstDigitRun (stripL (stripQualifiers a1.data)) = some d1 →
      firstDigitRun (stripL (stripQualifiers a2.data)) = some d2 →
      d1 ≠ d2 → similar_address_sl a1 a2 = false) := by
  constructor
  · intro a1 a2 d1 d2 h1 h2 h3
    unfold similar_address_y
    split
    · rfl
    · rw [h1, h2]
      simp [h3]
  · intro a1 a2 d1 d2 h1 h2 h3
    unfold similar_address_sl
    split
    · rfl
    · rw [h1, h2]
      simp [h3]

/-- C3 witness: the amended veto at the spec's own example. -/
theorem c3_digit_veto_witness :
    similar_address_y "123 Main St" "456 Main St" = false ∧
    similar_address_sl "123 Main St" "456 Main St" = false :=
  ⟨c3_digit_veto_amended.1 "123 Main St" "456 Main St" ['1','2','3'] ['4','5','6']
      (by decide) (by decide) (by decide),
   c3_digit_veto_amended.2 "123 Main St" "456 Main St" ['1','2','3'] ['4','5','6']
      (by decide) (by decide) (by decide)⟩

/-! ## Claim C4 -/

lemma lowerPairs_no_lower_key :
    ∀ p ∈ lowerPairs, lowerPairs.find? (fun q => q.1 = p.2) = none := by
  decide

lemma lowerC_idem (c : Char) : lowerC (lowerC c) = lowerC c := by
  unfold lowerC
  cases h : lowerPairs.find? (fun p => p.1 = c) with
  | none => simp [h]
  | some p =>
    have hp := List.mem_of_find?_eq_some h
    simp [lowerPairs_no_lower_key p hp]

lemma stripL_sublist (s : List Char) : List.Sublist (stripL s) s := by
  unfold stripL
  have h2 : List.Sublist ((s.dropWhile isSpaceC).reverse.dropWhile isSpaceC)
      (s.dropWhile isSpaceC).reverse := List.dropWhile_sublist _
  have h3 := h2.reverse
  rw [List.reverse_reverse] at h3
  exact h3.trans (List.dropWhile_sublist _)

lemma chopSuffix_sublist (suf n : List Char) : List.Sublist (chopSuffix suf n) n := by
  unfold chopSuffix
  split
  · exact (stripL_sublist _).trans (List.take_sublist _ _)
  · exact List.Sublist.refl n

lemma applySuffixes_sublist (n : List Char) : List.Sublist (applySuffixes n) n := by
  unfold applySuffixes
  exact (chopSuffix_sublist _ _).trans ((chopSuffix_sublist _ _).trans
    ((chopSuffix_sublist _ _).trans ((chopSuffix_sublist _ _).trans
      (chopSuffix_sublist _ _))))

lemma map_lowerC_fixed (z : List Char) (h : ∀ c ∈ z, lowerC c = c) :
    lowerL z = z := by
  induction z with
  | nil => rfl
  | cons a l ih =>
    simp only [lowerL, List.map_cons]
    rw [h a (by simp)]
    have := ih (fun c hc => h c (by simp [hc]))
    simp only [lowerL] at this
    rw [this]

/-- Every character of a normalized firm name is lowercase-fixed and is
neither a period nor a comma. -/
lemma normalize_firm_name_chars (s : String) :
    ∀ c ∈ (normalize_firm_name s).data, lowerC c = c ∧ c ≠ '.' ∧ c ≠ ',' := by
  intro c hc
  have hdata : (normalize_firm_name s).data = normalizeCore s.data := by
    simp only [normalize_firm_name]
  rw [hdata] at hc
  unfold normalizeCore at hc
  have hc2 : c ∈ removeDotComma (lowerL (stripL (collapseWs s.data))) :=
    (applySuffixes_sublist _).subset hc
  unfold removeDotComma at hc2
  have hmem := List.mem_filter.mp hc2
  have hlow : c ∈ lowerL (stripL (collapseWs s.data)) := hmem.1
  obtain ⟨a, _, ha⟩ := List.mem_map.mp hlow
  refine ⟨?_, ?_, ?_⟩
  · rw [← ha]; exact lowerC_idem a
  · intro h
    rw [h] at hmem
    simp at hmem
  · intro h
    rw [h] at hmem
    simp at hmem

/-- C4 counterexample: `normalize_firm_name` is not idempotent — the suffix
loop checks " inc" before " co", so "foo inc co" normalizes to "foo inc" in
one pass and to "foo" in two. -/
theorem c4_counterexample_double_suffix :
    normalize_firm_name (normalize_firm_name "foo inc co") ≠
      normalize_firm_name "foo inc co" := by
  decide

/-- C4 amended: `normalize_firm_name` is idempotent on every input whose
first normalization is whitespace-normal (collapsing and stripping it changes
nothing — period/comma removal can create double or leading spaces) and does
not still end with one of the corporate suffixes (a later suffix chop can
expose an earlier one, as in the counterexample). -/
theorem c4_idempotent_amended (s : String)
    (h1 : stripL (collapseWs (normalize_firm_name s).data) = (normalize_firm_name s).data)
    (h2 : ∀ suf ∈ firmSuffixes, suf.isSuffixOf (normalize_firm_name s).data = false) :
    normalize_firm_name (normalize_firm_name s) = normalize_firm_name s := by
  have hchars := normalize_firm_name_chars s
  have hlow : lowerL (normalize_firm_name s).data = (normalize_firm_name s).data :=
    map_lowerC_fixed _ (fun c hc => (hchars c hc).1)
  have hrdc : removeDotComma (normalize_firm_name s).data = (normalize_firm_name s).data := by
    unfold removeDotComma
    refine List.filter_eq_self.mpr (fun c hc => ?_)
    have := hchars c hc
    simp [this.2.1, this.2.2]
  have hinc := h2 " inc".data (by simp [firmSuffixes])
  have hllc := h2 " llc".data (by simp [firmSuffixes])
  have hcorporation := h2 " corporation".data (by simp [firmSuffixes])
  have hcorp := h2 " corp".data (by simp [firmSuffixes])
  have hco := h2 " co".data (by simp [firmSuffixes])
  have einc : chopSuffix " inc".data (normalize_firm_name s).data =
      (normalize_firm_name s).data := by
    unfold chopSuffix
    rw [hinc]
    simp
  have ellc : chopSuffix " llc".data (normalize_firm_name s).data =
      (normalize_firm_name s).data := by
    unfold chopSuffix
    rw [hllc]
    simp
  have ecorporation : chopSuffix " corporation".data (normalize_firm_name s).data =
      (normalize_firm_name s).data := by
    unfold chopSuffix
    rw [hcorporation]
    simp
  have ecorp : chopSuffix " corp".data (normalize_firm_name s).data =
      (normalize_firm_name s).data := by
    unfold chopSuffix
    rw [hcorp]
    simp
  have eco : chopSuffix " co".data (normalize_firm_name s).data =
      (normalize_firm_name s).data := by
    unfold chopSuffix
    rw [hco]
    simp
  have hsuf : applySuffixes (normalize_firm_name s).data = (normalize_firm_name s).data := by
    unfold applySuffixes
    rw [einc, ellc, ecorporation, ecorp, eco]
  show (⟨normalizeCore (normalize_firm_name s).data⟩ : String) = normalize_firm_name s
  unfold normalizeCore
  rw [h1, hlow, hrdc, hsuf]

/-- C4 witness: the amended idempotence at "Acme Inc" (normalizing once gives
"acme", which is whitespace-normal and suffix-free). -/
theorem c4_idempotent_witness :
    normalize_firm_name (normalize_firm_name "Acme Inc") =
      normalize_firm_name "Acme Inc" :=
  c4_idempotent_amended "Acme Inc" (by decide) (by decide)

/-! ## Claim C8 -/

lemma cpl_self (xs : List Char) : cpl xs xs = xs.length := by
  induction xs with
  | nil => rfl
  | cons x l ih => simp [cpl, ih]

lemma cpl_le_left (xs ys : List Char) : cpl xs ys ≤ xs.length := by
  induction xs generalizing ys with
  | nil => cases ys <;> simp [cpl]
  | cons x l ih =>
    cases ys with
    | nil => simp [cpl]
    | cons y m =>
      simp only [cpl]
      split
      · have := ih m
        simp
        omega
      · simp

/-- A fold of `bmStep` never moves off a best entry whose recorded size is
already an upper bound for every remaining candidate. -/
lemma foldl_bmStep_fixed (a b : List Char) (best : Nat × Nat × Nat) :
    ∀ l : List (Nat × Nat),
      (∀ c ∈ l, cpl (a.drop c.1) (b.drop c.2) ≤ best.2.2) →
      l.foldl (bmStep a b) best = best := by
  intro l
  induction l with
  | nil => intro _; rfl
  | cons c t ih =>
    intro h
    have hc := h c (by simp)
    have hstep : bmStep a b best c = best := by
      unfold bmStep
      have : ¬ best.2.2 < cpl (a.drop c.1) (b.drop c.2) := by omega
      simp [this]
    simp only [List.foldl_cons, hstep]
    exact ih (fun d hd => h d (by simp [hd]))

lemma bmCandidates_self_cons (x : Char) (xs : List Char) :
    ∃ t, bmCandidates (x :: xs) (x :: xs) = (0, 0) :: t := by
  simp only [bmCandidates, List.length_cons, List.range_succ_eq_map,
    List.flatMap_cons, List.map_cons, List.cons_append]
  exact ⟨_, rfl⟩

/-- For identical strings, `find_longest_match` returns the whole-string
block: the very first candidate `(0, 0)` has run length `n`, and no candidate
can beat it. -/
lemma bestMatch_self (a : List Char) : bestMatch a a = (0, 0, a.length) := by
  cases a with
  | nil => rfl
  | cons x xs =>
    obtain ⟨t, ht⟩ := bmCandidates_self_cons x xs
    have hstep0 : bmStep (x :: xs) (x :: xs) (0, 0, 0) (0, 0) =
        (0, 0, (x :: xs).length) := by
      unfold bmStep
      simp [cpl_self]
    have hbound : ∀ c ∈ t, cpl ((x :: xs).drop c.1) ((x :: xs).drop c.2) ≤
        (0, 0, (x :: xs).length).2.2 := by
      intro c _
      have h1 := cpl_le_left ((x :: xs).drop c.1) ((x :: xs).drop c.2)
      have h2 : ((x :: xs).drop c.1).length ≤ (x :: xs).length := by
        simp [List.length_drop]
      exact le_trans h1 h2
    unfold bestMatch
    rw [ht]
    simp only [List.foldl_cons, hstep0]
    exact foldl_bmStep_fixed _ _ _ t hbound

lemma smTGo_nil (fuel : Nat) : smTGo fuel [] [] = 0 := by
  cases fuel <;> simp [smTGo, bestMatch, bmCandidates]

/-- For identical strings the matching blocks cover everything:
`M = len(a)`. -/
lemma smT_self (a : List Char) : smT a a = a.length := by
  cases a with
  | nil => simp [smT, smTGo_nil]
  | cons x xs =>
    unfold smT smTGo
    rw [bestMatch_self]
    simp only [List.length_cons]
    rw [if_neg (by omega)]
    simp only [List.take_zero]
    have hdrop : List.drop (0 + (xs.length + 1)) (x :: xs) = [] := by
      apply List.drop_eq_nil_of_le
      simp
    rw [hdrop]
    simp [smTGo_nil]

/-- C8 amended: the reflexive half of the claim holds for every string of
fewer than 200 characters — the regime in which `SequenceMatcher`'s default
`autojunk` heuristic is inert and the embedding is exact (difflib returns
1.0 for two empty strings as well, so non-emptiness is not needed).  The
symmetry half is false; see the counterexample. -/
theorem c8_reflexivity_amended (a : String) (_h : a.data.length < 200) :
    text_similarity a a = 1 := by
  unfold text_similarity smRatioQ
  rw [smT_self]
  by_cases h : a.data.length + a.data.length = 0
  · rw [if_pos h]
  · rw [if_neg h]
    have hn : a.data.length ≠ 0 := by omega
    have hq : ((a.data.length : ℚ) + (a.data.length : ℚ)) ≠ 0 := by
      have : (a.data.length : ℚ) ≠ 0 := Nat.cast_ne_zero.mpr hn
      positivity
    have hl : (a.length : ℚ) ≠ 0 := by
      have he : a.length = a.data.length := rfl
      rw [he]
      exact Nat.cast_ne_zero.mpr hn
    field_simp
    ring

/-- C8 witness: the amended reflexivity at a concrete short string. -/
theorem c8_reflexivity_witness : text_similarity "acme" "acme" = 1 :=
  c8_reflexivity_amended "acme" (by decide)

/-- C8 counterexample: the ratio is not symmetric.  `SequenceMatcher` picks
the longest matching block earliest in its *first* argument; for "abcb" vs
"bcab" that choice leaves total match size 2 (ratio 1/2) one way and 3
(ratio 3/4) the other way. -/
theorem c8_counterexample_asymmetric :
    text_similarity "abcb" "bcab" ≠ text_similarity "bcab" "abcb" := by
  have h1 : smT "abcb".data "bcab".data = 2 := by decide
  have h2 : smT "bcab".data "abcb".data = 3 := by decide
  have l1 : "abcb".data.length = 4 := rfl
  have l2 : "bcab".data.length = 4 := rfl
  unfold text_similarity smRatioQ
  rw [h1, h2, l1, l2]
  norm_num

/-! ## Claim C7 -/

/-- The intersection count the code computes is the cardinality of the
intersection of the two hash sets. -/
lemma interSize_eq (images1 images2 : List Image) :
    interSize images1 images2 =
      ((images1.map Image.hash).toFinset ∩ (images2.map Image.hash).toFinset).card := by
  unfold interSize hashSetOf
  have hnd : (((images1.map Image.hash).dedup).filter
      (fun h => h ∈ (images2.map Image.hash).dedup)).Nodup :=
    (List.nodup_dedup _).filter _
  rw [← List.Nodup.dedup hnd, ← List.card_toFinset]
  apply congrArg Finset.card
  ext x
  simp [List.mem_filter, List.mem_dedup]

/-- The union count the code computes is the cardinality of the union of the
two hash sets. -/
lemma unionSize_eq (images1 images2 : List Image) :
    unionSize images1 images2 =
      ((images1.map Image.hash).toFinset ∪ (images2.map Image.hash).toFinset).card := by
  unfold unionSize hashSetOf
  have hnd : ((images1.map Image.hash).dedup ++
      ((images2.map Image.hash).dedup).filter
        (fun h => ¬ h ∈ (images1.map Image.hash).dedup)).Nodup := by
    refine List.Nodup.append (List.nodup_dedup _) ((List.nodup_dedup _).filter _) ?_
    intro a ha hb
    have hf := (List.mem_filter.mp hb).2
    simp only [decide_not, Bool.not_eq_true', decide_eq_false_iff_not] at hf
    exact hf ha
  rw [← List.Nodup.dedup hnd, ← List.card_toFinset]
  apply congrArg Finset.card
  ext x
  simp only [List.mem_toFinset, List.mem_append, List.mem_filter, List.mem_dedup,
    Finset.mem_union, decide_not, Bool.not_eq_true', decide_eq_false_iff_not]
  constructor
  · rintro (h | ⟨h, _⟩)
    · exact Or.inl h
    · exact Or.inr h
  · rintro (h | h)
    · exact Or.inl h
    · by_cases h1 : x ∈ images1.map Image.hash
      · exact Or.inl h1
      · exact Or.inr ⟨h, h1⟩

/-- C7 amended: `compute_image_similarity` is the Jaccard ratio of the two
documents' distinct hash sets *scaled to a percentage* (the claim's value
`1/3` appears as `100/3`), and is 0 when either document has no images. -/
theorem c7_jaccard_amended (images1 images2 : List Image) :
    compute_image_similarity images1 images2 =
      if images1.isEmpty || images2.isEmpty then 0
      else 100 * (((images1.map Image.hash).toFinset ∩
            (images2.map Image.hash).toFinset).card : ℚ) /
          (((images1.map Image.hash).toFinset ∪
            (images2.map Image.hash).toFinset).card : ℚ) := by
  unfold compute_image_similarity
  by_cases h : (images1.isEmpty || images2.isEmpty) = true
  · rw [if_pos h, if_pos h]
  · rw [if_neg h, if_neg h]
    have h1 : images1 ≠ [] := by
      simp only [Bool.or_eq_true, List.isEmpty_iff] at h
      tauto
    have hpos : 0 < unionSize images1 images2 := by
      unfold unionSize
      rw [List.length_append]
      have hne : (hashSetOf images1) ≠ [] := by
        unfold hashSetOf
        simp [List.dedup_eq_nil, h1]
      have := List.length_pos.mpr hne
      omega
    rw [if_pos hpos, interSize_eq, unionSize_eq]
    ring

/-- C7 counterexample: on hash sets {h1,h2} and {h2,h3} the function returns
`100/3` — the Jaccard ratio times 100 — not the claimed `1/3`. -/
theorem c7_counterexample_percent_scale :
    compute_image_similarity imagesH12 imagesH23 = 100 / 3 ∧
    ¬ compute_image_similarity imagesH12 imagesH23 = 1 / 3 := by
  have hi : interSize imagesH12 imagesH23 = 1 := by decide
  have hu : unionSize imagesH12 imagesH23 = 3 := by decide
  have he : (imagesH12.isEmpty || imagesH23.isEmpty) = false := by decide
  have key : compute_image_similarity imagesH12 imagesH23 = 100 / 3 := by
    simp only [compute_image_similarity, he, hi, hu]
    norm_num
  exact ⟨key, by rw [key]; norm_num⟩

/-! ## Claim C5 -/

lemma lookupN_cons (e : String × Nat) (m : List (String × Nat)) (p : String) :
    lookupN (e :: m) p = if e.1 = p then e.2 else lookupN m p := by
  by_cases h : e.1 = p
  · simp [lookupN, List.find?_cons_of_pos, h]
  · simp [lookupN, List.find?_cons_of_neg, h]

lemma lookupN_bump (m : List (String × Nat)) (q p : String) :
    lookupN (bump m q) p = lookupN m p + if q = p then 1 else 0 := by
  induction m with
  | nil =>
    by_cases h : q = p <;> simp [bump, lookupN_cons, lookupN, h]
  | cons e es ih =>
    by_cases heq : e.1 = q
    · simp only [bump, if_pos heq]
      by_cases hep : e.1 = p
      · rw [heq] at hep
        simp [lookupN_cons, heq ▸ hep, hep]
      · have hqp : ¬ q = p := by rw [← heq]; exact hep
        simp [lookupN_cons, heq ▸ hep, hep, hqp]
    · simp only [bump, if_neg heq]
      by_cases hep : e.1 = p
      · have hqp : ¬ q = p := by intro h; rw [h] at heq; exact heq hep
        simp [lookupN_cons, hep, hqp]
      · simp [lookupN_cons, hep, ih]

lemma lookupN_foldl_bump (l : List String) (m : List (String × Nat)) (p : String) :
    lookupN (l.foldl bump m) p = lookupN m p + l.count p := by
  induction l generalizing m with
  | nil => simp
  | cons q l ih =>
    simp only [List.foldl_cons, List.count_cons]
    rw [ih, lookupN_bump]
    by_cases h : q = p
    · simp [h]
      omega
    · simp [h, Ne.symm h]

lemma pages_foldl_bump (pages : List String) (m : List (String × Nat)) :
    pages.foldl (fun m page => (phrasesOfPage page).foldl bump m) m =
      (pages.flatMap phrasesOfPage).foldl bump m := by
  induction pages generalizing m with
  | nil => simp
  | cons pg pages ih =>
    simp only [List.foldl_cons, List.flatMap_cons, List.foldl_append]
    exact ih _

lemma phraseCountMap_eq (docs : List (List String)) :
    phraseCountMap docs = (allPhrases docs).foldl bump [] := by
  unfold phraseCountMap allPhrases
  generalize ([] : List (String × Nat)) = m
  induction docs generalizing m with
  | nil => simp
  | cons pages docs ih =>
    simp only [List.foldl_cons, List.flatMap_cons, List.foldl_append]
    rw [pages_foldl_bump]
    exact ih _

lemma bump_keys (m : List (String × Nat)) (q : String) :
    (bump m q).map Prod.fst =
      if q ∈ m.map Prod.fst then m.map Prod.fst else m.map Prod.fst ++ [q] := by
  induction m with
  | nil => simp [bump]
  | cons e es ih =>
    by_cases heq : e.1 = q
    · simp [bump, heq]
    · simp only [bump, if_neg heq, List.map_cons, ih]
      by_cases hq : q ∈ es.map Prod.fst
      · simp [hq, Ne.symm heq]
      · have : ¬ q ∈ e.1 :: es.map Prod.fst := by
          simp [hq, Ne.symm heq]
        simp [hq, this]

lemma bump_keys_nodup (m : List (String × Nat)) (q : String)
    (h : (m.map Prod.fst).Nodup) : ((bump m q).map Prod.fst).Nodup := by
  rw [bump_keys]
  split
  · exact h
  · simp_all [List.nodup_append]

lemma foldl_bump_keys_nodup (l : List String) (m : List (String × Nat))
    (h : (m.map Prod.fst).Nodup) : ((l.foldl bump m).map Prod.fst).Nodup := by
  induction l generalizing m with
  | nil => exact h
  | cons q l ih => exact ih _ (bump_keys_nodup _ _ h)

lemma bump_values (m : List (String × Nat)) (q : String)
    (h : ∀ e ∈ m, 1 ≤ e.2) : ∀ e ∈ bump m q, 1 ≤ e.2 := by
  induction m with
  | nil =>
    intro e he
    simp only [bump, List.mem_singleton] at he
    subst he
    simp
  | cons f fs ih =>
    intro e he
    by_cases heq : f.1 = q
    · simp only [bump, if_pos heq, List.mem_cons] at he
      rcases he with rfl | he
      · simp
      · exact h e (by simp [he])
    · simp only [bump, if_neg heq, List.mem_cons] at he
      rcases he with rfl | he
      · exact h e (by simp)
      · exact ih (fun f hf => h f (by simp [hf])) e he

lemma foldl_bump_values (l : List String) (m : List (String × Nat))
    (h : ∀ e ∈ m, 1 ≤ e.2) : ∀ e ∈ l.foldl bump m, 1 ≤ e.2 := by
  induction l generalizing m with
  | nil => exact h
  | cons q l ih => exact ih _ (bump_values _ _ h)

lemma lookupN_of_mem (m : List (String × Nat)) (hnd : (m.map Prod.fst).Nodup)
    (e : String × Nat) (he : e ∈ m) : lookupN m e.1 = e.2 := by
  induction m with
  | nil => cases he
  | cons f fs ih =>
    simp only [List.map_cons, List.nodup_cons] at hnd
    rcases List.mem_cons.mp he with rfl | he2
    · simp [lookupN_cons]
    · rw [lookupN_cons]
      have hne : ¬ f.1 = e.1 := by
        intro hc
        exact hnd.1 (hc ▸ List.mem_map_of_mem Prod.fst he2)
      rw [if_neg hne]
      exact ih hnd.2 he2

lemma mem_detected_iff (docs : List (List String)) (p : String) :
    p ∈ detectedTemplatePhrases docs ↔
      ∃ e ∈ phraseCountMap docs, phraseThreshold docs.length ≤ e.2 ∧ e.1 = p := by
  unfold detectedTemplatePhrases
  rw [List.mem_filterMap]
  constructor
  · rintro ⟨e, he, hfe⟩
    by_cases h : phraseThreshold docs.length ≤ e.2
    · rw [if_pos h] at hfe
      exact ⟨e, he, h, Option.some_injective _ hfe⟩
    · rw [if_neg h] at hfe
      cases hfe
  · rintro ⟨e, he, hth, hep⟩
    exact ⟨e, he, by rw [if_pos hth, hep]⟩

/-- C5 amended: the detector counts *occurrences*, not per-document
frequency — a phrase repeated on several pages (even of a single document)
counts each time — and classifies a phrase as boilerplate exactly when its
total occurrence count reaches `int(0.7 * total_documents)` (at least one
occurrence is required for the phrase to exist in the counter; there is no
`max(2, ·)` floor). -/
theorem c5_detection_amended (docs : List (List String)) (p : String) :
    p ∈ detectedTemplatePhrases docs ↔
      max (phraseThreshold docs.length) 1 ≤ phraseOcc docs p := by
  have hocc : phraseOcc docs p = (allPhrases docs).count p := rfl
  have hlook : lookupN (phraseCountMap docs) p = phraseOcc docs p := by
    rw [phraseCountMap_eq, lookupN_foldl_bump, hocc]
    simp [lookupN]
  have hnd : ((phraseCountMap docs).map Prod.fst).Nodup := by
    rw [phraseCountMap_eq]
    exact foldl_bump_keys_nodup _ _ (by simp)
  have hval : ∀ e ∈ phraseCountMap docs, 1 ≤ e.2 := by
    rw [phraseCountMap_eq]
    exact foldl_bump_values _ _ (by simp)
  rw [mem_detected_iff]
  constructor
  · rintro ⟨e, he, hth, hep⟩
    have h1 : lookupN (phraseCountMap docs) e.1 = e.2 := lookupN_of_mem _ hnd e he
    rw [hep, hlook] at h1
    have h2 := hval e he
    rw [← h1] at hth h2
    exact max_le hth h2
  · intro hge
    have h1 : 1 ≤ phraseOcc docs p := le_trans (le_max_right _ _) hge
    have hth : phraseThreshold docs.length ≤ phraseOcc docs p :=
      le_trans (le_max_left _ _) hge
    cases hf : (phraseCountMap docs).find? (fun e => e.1 = p) with
    | none =>
      exfalso
      have : lookupN (phraseCountMap docs) p = 0 := by simp [lookupN, hf]
      rw [hlook] at this
      omega
    | some e =>
      have hep : e.1 = p := by
        have := List.find?_some hf
        simpa using this
      have hem := List.mem_of_find?_eq_some hf
      have hlk : lookupN (phraseCountMap docs) p = e.2 := by simp [lookupN, hf]
      rw [hlook] at hlk
      exact ⟨e, hem, by omega, hep⟩

/-- C5 counterexample: in a two-document corpus where "a b c d e f" occurs
once (in one document only), the claimed rule — document frequency at least
`max(2, floor(0.7 * 2)) = 2` — says it is not boilerplate, yet the code's
threshold is `int(0.7 * 2) = 1` occurrence and it *is* classified as
boilerplate. -/
theorem c5_counterexample_occurrence_counting :
    "a b c d e f" ∈ detectedTemplatePhrases corpusOnePhrase ∧
    ¬ specPhraseBoilerplate corpusOnePhrase "a b c d e f" := by
  constructor
  · decide
  · unfold specPhraseBoilerplate
    decide

/-! ## Claim C6 -/

lemma pageSentences_fst (pg : Nat) (t : String) (ps : Nat × String)
    (h : ps ∈ pageSentences pg t) : ps.1 = pg := by
  unfold pageSentences at h
  obtain ⟨s, _, hs⟩ := List.mem_map.mp h
  rw [← hs]

/-- C6 amended: the page restriction keeps only the *middle* of each
document — a sentence or image participates exactly on pages `p` with
`9 ≤ p ≤ max_page - 11`, i.e. the first eight and the last eleven pages are
*excluded* (the claim has the window inverted).  Every emitted text or image
match lies inside that middle window on both sides. -/
theorem c6_page_window_amended :
    (∀ tbp1 tbp2 : List (Nat × String), ∀ p1 p2 : Nat, ∀ s : String,
      (p1, p2, s) ∈ extract_matching_sentences tbp1 tbp2 →
      9 ≤ p1 ∧ p1 ≤ maxKey tbp1 - 11 ∧ 9 ≤ p2 ∧ p2 ≤ maxKey tbp2 - 11) ∧
    (∀ images1 images2 : List Image, ∀ m1 m2 : Nat, ∀ q : Nat × Nat × String × String,
      q ∈ process_image_comparison images1 images2 m1 m2 →
      9 ≤ q.1 ∧ q.1 ≤ m1 - 11 ∧ 9 ≤ q.2.1 ∧ q.2.1 ≤ m2 - 11) := by
  constructor
  · intro tbp1 tbp2 p1 p2 s hmem
    unfold extract_matching_sentences at hmem
    rw [List.mem_flatMap] at hmem
    obtain ⟨pt1, _, hmem⟩ := hmem
    split at hmem
    · cases hmem
    next hc1 =>
      rw [List.mem_flatMap] at hmem
      obtain ⟨pt2, _, hmem⟩ := hmem
      split at hmem
      · cases hmem
      next hc2 =>
        rw [List.mem_flatMap] at hmem
        obtain ⟨ps1, hps1, hmem⟩ := hmem
        rw [List.mem_filterMap] at hmem
        obtain ⟨ps2, hps2, hf⟩ := hmem
        split at hf
        · have h1 := pageSentences_fst _ _ _ hps1
          have h2 := pageSentences_fst _ _ _ hps2
          have hq : p1 = pt1.1 ∧ p2 = pt2.1 := by
            injection hf with hf
            rw [← h1, ← h2]
            exact ⟨congrArg Prod.fst hf.symm, congrArg Prod.fst (congrArg Prod.snd hf.symm)⟩
          obtain ⟨rfl1, rfl2⟩ := hq
          rw [rfl1, rfl2]
          omega
        · cases hf
  · intro images1 images2 m1 m2 q hmem
    unfold process_image_comparison at hmem
    rw [List.mem_flatMap] at hmem
    obtain ⟨i1, _, hmem⟩ := hmem
    split at hmem
    · cases hmem
    next hc1 =>
      rw [List.mem_filterMap] at hmem
      obtain ⟨i2, _, hf⟩ := hmem
      split at hf
      · cases hf
      next hc2 =>
        unfold compare_images at hf
        split at hf
        · injection hf with hf
          rw [← hf]
          simp only
          omega
        · cases hf

/-- C6 counterexample: page 20 of a 40-page document is outside the claimed
window (not within the first ~9 nor the last ~11 pages, even generously read
as `p ≤ 12 ∨ 28 ≤ p`), yet the image matcher emits a match for it — the code
keeps the middle pages, not the edges. -/
theorem c6_counterexample_middle_pages :
    process_image_comparison imagesMidA imagesMidB 40 40 = [(20, 20, "TL", "TR")] ∧
    ¬ (20 ≤ 12 ∨ 28 ≤ 20) := by
  constructor
  · decide
  · omega

/-- For identical sentences the `ratio() >= 0.75` test always passes
(ratio is exactly 1 by `smT_self`). -/
lemma ratioGeH_self_75 (a : List Char) : ratioGeH a a 75 = true := by
  unfold ratioGeH
  by_cases h : a.length + a.length = 0
  · rw [if_pos h]
    simp
  · rw [if_neg h, smT_self]
    simp only [decide_eq_true_eq]
    omega

/-- The 60-character sentence on page 15 of the 30-page mapping survives the
window filter on both sides and matches itself, so the matcher emits it. -/
lemma middle_page_match_emitted :
    (15, 15, truncate200 sentSixty) ∈
      extract_matching_sentences tbpMiddle tbpMiddle := by
  have hs : pageSentences 15 sentSixty = [(15, sentSixty)] := by decide
  have hr := ratioGeH_self_75 sentSixty.data
  unfold extract_matching_sentences tbpMiddle
  simp only [List.flatMap_cons, List.flatMap_nil, List.append_nil]
  norm_num [maxKey]
  exact ⟨15, sentSixty, by rw [hs]; simp, 15, sentSixty, by rw [hs]; simp,
    hr, rfl, rfl, rfl⟩

/-- C6 witness: the amended window bound at a text match on page 15 of a
30-page document and an image match on page 20 of a 40-page document. -/
theorem c6_page_window_witness :
    (9 ≤ 15 ∧ 15 ≤ maxKey tbpMiddle - 11 ∧ 9 ≤ 15 ∧ 15 ≤ maxKey tbpMiddle - 11) ∧
    (9 ≤ (20, 20, "TL", "TR").1 ∧ (20, 20, "TL", "TR").1 ≤ 40 - 11 ∧
     9 ≤ (20, 20, "TL", "TR").2.1 ∧ (20, 20, "TL", "TR").2.1 ≤ 40 - 11) :=
  ⟨c6_page_window_amended.1 tbpMiddle tbpMiddle 15 15 (truncate200 sentSixty)
      middle_page_match_emitted,
   c6_page_window_amended.2 imagesMidA imagesMidB 40 40 (20, 20, "TL", "TR")
      (by decide)⟩

/-! ## Claim C10 -/

/-- A field is sentinel exactly when the resolvers' validity guard rejects
its stripped value. -/
lemma sentinel_iff (o : Option String) :
    sentinelAttr o ↔ attrOk (fieldVal o) = false := by
  unfold sentinelAttr attrOk fieldVal
  constructor
  · rintro (h | h) <;> simp [h]
  · intro h
    rcases Bool.and_eq_false_iff.mp h with h1 | h1 <;> simp at h1 <;> simp [h1]

/-- When both phone fields are sentinel, the record contributes no phone
value at all. -/
lemma phoneVals_nil (a : Award)
    (h1 : sentinelAttr a.poc_phone) (h2 : sentinelAttr a.pi_phone) :
    phoneVals a = [] := by
  rw [sentinel_iff] at h1 h2
  unfold phoneVals
  simp only [List.map_cons, List.map_nil]
  rw [List.filter_cons, List.filter_cons]
  rw [h1, h2]
  simp

/-- C10: a record whose `company_url` (resp. both phone fields, resp.
`address1`) is missing, whitespace-only, or `"none"` case-insensitively after
stripping never contributes a `shared_url` (resp. `shared_phone`, resp.
`similar_address`) edge, and every reason payload is itself a valid
(non-sentinel) value. -/
theorem c10_sentinel_never_justifies_edges (awards : List Award) (i j : Nat)
    (r : Reason) (hr : r ∈ edgeReasons awards i j) :
    (∀ u, r = Reason.shared_url u →
      attrOk u = true ∧
      ¬ sentinelAttr (awardAt awards i).company_url ∧
      ¬ sentinelAttr (awardAt awards j).company_url) ∧
    (∀ p, r = Reason.shared_phone p →
      attrOk p = true ∧
      ¬ (sentinelAttr (awardAt awards i).poc_phone ∧
         sentinelAttr (awardAt awards i).pi_phone) ∧
      ¬ (sentinelAttr (awardAt awards j).poc_phone ∧
         sentinelAttr (awardAt awards j).pi_phone)) ∧
    (∀ a1 a2, r = Reason.similar_address a1 a2 →
      attrOk a1 = true ∧ attrOk a2 = true ∧
      ¬ sentinelAttr (awardAt awards i).address1 ∧
      ¬ sentinelAttr (awardAt awards j).address1) := by
  unfold edgeReasons at hr
  split at hr
  case isFalse => cases hr
  case isTrue hb =>
    split at hr
    case isTrue => cases hr
    case isFalse hfirm =>
      simp only [List.mem_append] at hr
      rcases hr with (hrU | hrP) | hrA
      · split at hrU
        case isFalse => cases hrU
        case isTrue hU =>
          simp only [List.mem_singleton] at hrU
          subst hrU
          have hUi : attrOk (fieldVal (awardAt awards i).company_url) = true := hU.1
          have hUj : attrOk (fieldVal (awardAt awards j).company_url) = true := hU.2.1
          refine ⟨?_, ?_, ?_⟩
          · intro u hu
            injection hu with hu
            subst hu
            refine ⟨hU.1, ?_, ?_⟩
            · rw [sentinel_iff, hUi]
              simp
            · rw [sentinel_iff, hUj]
              simp
          · intro p hp
            exact absurd hp (by simp)
          · intro a1 a2 hab
            exact absurd hab (by simp)
      · obtain ⟨p, hp, hrp⟩ := List.mem_map.mp hrP
        subst hrp
        unfold sharedPhones at hp
        rw [List.mem_dedup] at hp
        have hf := List.mem_filter.mp hp
        have hpi : p ∈ phoneVals (awardAt awards i) := hf.1
        have hpj : p ∈ phoneVals (awardAt awards j) := by
          have := hf.2
          simpa using this
        have hok : attrOk p = true := (List.mem_filter.mp hpi).2
        refine ⟨?_, ?_, ?_⟩
        · intro u hu
          exact absurd hu (by simp)
        · intro q hq
          injection hq with hq
          subst hq
          refine ⟨hok, ?_, ?_⟩
          · rintro ⟨h1, h2⟩
            rw [phoneVals_nil _ h1 h2] at hpi
            cases hpi
          · rintro ⟨h1, h2⟩
            rw [phoneVals_nil _ h1 h2] at hpj
            cases hpj
        · intro a1 a2 hab
          exact absurd hab (by simp)
      · split at hrA
        case isFalse => cases hrA
        case isTrue hA =>
          simp only [List.mem_singleton] at hrA
          subst hrA
          have hAi : attrOk (fieldVal (awardAt awards i).address1) = true := hA.1
          have hAj : attrOk (fieldVal (awardAt awards j).address1) = true := hA.2.1
          refine ⟨?_, ?_, ?_⟩
          · intro u hu
            exact absurd hu (by simp)
          · intro p hp
            exact absurd hp (by simp)
          · intro a1 a2 hab
            injection hab with h1 h2
            subst h1
            subst h2
            refine ⟨hA.1, hA.2.1, ?_, ?_⟩
            · rw [sentinel_iff, hAi]
              simp
            · rw [sentinel_iff, hAj]
              simp

/-- C10 witness: the sentinel theorem applied to the phone edge of the
worked two-record example. -/
theorem c10_sentinel_witness :
    attrOk "555-3333" = true ∧
    ¬ (sentinelAttr (awardAt rowsPhonePair 0).poc_phone ∧
       sentinelAttr (awardAt rowsPhonePair 0).pi_phone) :=
  have h := (c10_sentinel_never_justifies_edges rowsPhonePair 0 1
    (Reason.shared_phone "555-3333") (by decide)).2.1 "555-3333" rfl
  ⟨h.1, h.2.1⟩
